import Mathlib

/-!
Verification development for the docs-agent core (`src/agent.ts`):
the URL scope filter `isDocsUrl`, the recursive sitemap resolver
`parseSitemap` together with the `sitemap_list` filtering pipeline, and
the page-section extractor behind the `page_section` tool.

The TypeScript code is shallowly embedded as executable Lean functions:

* JavaScript strings are modelled by `String`, with the operations
  `startsWith` / `endsWith` / `includes` modelled on the character list
  of the string (`jsStartsWith`, `jsEndsWith`, `jsIncludes`).
* The WHATWG `new URL(...)` parser is an abstract parameter
  `String → Option UrlParts` (the `catch` branch corresponds to `none`);
  a small concrete instance `parseUrlSimple` handles ordinary
  `scheme://host/path` URLs (no userinfo, port, query or fragment) and
  is used to evaluate concrete examples.
* The network is an explicit environment: `Web` assigns a parsed XML
  document to finitely many URLs and an HTTP failure status to all
  others; HTML pages are supplied directly as node lists.
* `async`/`await` with `Promise.all` over sibling sitemap expansions is
  sequentialized in listing order, threading the visited set from left
  to right; this matches the source's visited-set discipline (the set is
  checked and extended synchronously before any fetch suspends) for all
  the deterministic properties proved here.
* Recursion in `parseSitemap` is embedded with an explicit fuel
  argument; `none` means the fuel ran out, so termination of the
  TypeScript recursion is the theorem that some fuel value makes the
  result stabilize away from `none`.
-/

namespace DocsAgent

/-- JS `s.startsWith(p)`, on the character sequence of `s`. -/
def jsStartsWith (s p : String) : Bool := p.data.isPrefixOf s.data

/-- JS `s.endsWith(p)`, on the character sequence of `s`. -/
def jsEndsWith (s p : String) : Bool := p.data.isSuffixOf s.data

/-- JS `s.includes(p)`, on the character sequence of `s`. -/
def jsIncludes (s p : String) : Bool := decide (p.data <:+: s.data)

/-- JS `s.trim()`: strip leading and trailing whitespace, on the
character sequence of `s`. -/
def jsTrim (s : String) : String :=
  ⟨((s.data.dropWhile Char.isWhitespace).reverse.dropWhile Char.isWhitespace).reverse⟩

/-- JS `s.toLowerCase()`, on the character sequence of `s`. -/
def jsToLower (s : String) : String := ⟨s.data.map Char.toLower⟩

/-- JS `array.join(sep)`. -/
def jsJoin (sep : String) : List String → String
  | [] => ""
  | [x] => x
  | x :: rest => x ++ sep ++ jsJoin sep rest

/-- The two components of a parsed WHATWG URL that `isDocsUrl` reads
(`u.hostname` and `u.pathname`). -/
structure UrlParts where
  hostname : String
  pathname : String
  deriving Repr, DecidableEq

/-- Concrete URL parser used to evaluate examples: accepts
`http://host/path` and `https://host/path` URLs with a nonempty host and
no userinfo, port, query or fragment, lower-casing the host as the
WHATWG parser does.  Unparsable strings give `none` (the `catch` branch
of `isDocsUrl`). -/
def parseUrlSimple (s : String) : Option UrlParts :=
  let cs := s.data
  let rest :=
    if ("https://".data).isPrefixOf cs then some (cs.drop 8)
    else if ("http://".data).isPrefixOf cs then some (cs.drop 7)
    else none
  match rest with
  | none => none
  | some r =>
    let host := r.takeWhile (fun c => c != '/')
    let path := r.dropWhile (fun c => c != '/')
    if host.isEmpty then none
    else some ⟨⟨host.map Char.toLower⟩, if path.isEmpty then "/" else ⟨path⟩⟩

/-- `isDocsUrl` from `src/agent.ts`, parameterized by the URL parser:
    ```
    try {
      const u = new URL(url);
      return (
        (u.hostname === "coder.com" || u.hostname.endsWith(".coder.com")) &&
        (u.pathname === "/docs" || u.pathname.startsWith("/docs/"))
      );
    } catch { return false; }
    ``` -/
def isDocsUrlWith (parseURL : String → Option UrlParts) (url : String) : Bool :=
  match parseURL url with
  | none => false
  | some u =>
    (u.hostname == "coder.com" || jsEndsWith u.hostname ".coder.com") &&
    (u.pathname == "/docs" || jsStartsWith u.pathname "/docs/")

/-- `isDocsUrl` with the concrete parser, for evaluating examples. -/
def isDocsUrl : String → Bool := isDocsUrlWith parseUrlSimple

/-- The scope predicate as the specification words it: the URL parses,
its host equals the root domain or is a subdomain of it, and its path
equals the root path or starts with the root path followed by `/`. -/
def SpecInScope (parseURL : String → Option UrlParts) (url : String) : Prop :=
  ∃ u, parseURL url = some u ∧
    (u.hostname = "coder.com" ∨ ∃ s, u.hostname = s ++ ".coder.com") ∧
    (u.pathname = "/docs" ∨ ∃ r, u.pathname = "/docs/" ++ r)

theorem jsEndsWith_iff (s p : String) : jsEndsWith s p = true ↔ ∃ t, s = t ++ p := by
  unfold jsEndsWith
  rw [List.isSuffixOf_iff_suffix]
  constructor
  · rintro ⟨t, ht⟩
    refine ⟨⟨t⟩, ?_⟩
    apply String.ext
    simpa [String.data_append] using ht.symm
  · rintro ⟨t, rfl⟩
    exact ⟨t.data, by simp [String.data_append]⟩

theorem jsStartsWith_iff (s p : String) : jsStartsWith s p = true ↔ ∃ t, s = p ++ t := by
  unfold jsStartsWith
  rw [List.isPrefixOf_iff_prefix]
  constructor
  · rintro ⟨t, ht⟩
    refine ⟨⟨t⟩, ?_⟩
    apply String.ext
    simpa [String.data_append] using ht.symm
  · rintro ⟨t, rfl⟩
    exact ⟨t.data, by simp [String.data_append]⟩

/-! ## Sitemap resolver

`parseSitemap` from `src/agent.ts`:

```
async function parseSitemap(url, seen = new Set()) {
  if (seen.has(url)) return [];
  seen.add(url);
  const xml = await fetchXml(url);        // throws on non-ok status
  const doc = parser.parse(xml);
  if (doc.sitemapindex?.sitemap) {
    const items = ...normalize to array...;
    const nested = await Promise.all(items.map((s) => parseSitemap(s.loc, seen)));
    return nested.flat();
  }
  if (doc.urlset?.url) {
    const urls = ...normalize to array...;
    return urls.map((u) => ({ loc, lastmod, changefreq,
                              priority: u.priority ? Number(u.priority) : undefined }));
  }
  return [];
}
```
-/

/-- `SitemapEntry` from `src/agent.ts`.  `priority` values are modelled
as rationals (the XML parser turns numeric text into a JS number before
`parseSitemap` looks at it). -/
structure SitemapEntry where
  loc : String
  lastmod : Option String
  changefreq : Option String
  priority : Option Rat
  deriving Repr, DecidableEq

/-- One `<url>` item of a leaf sitemap as the XML parser delivers it to
`parseSitemap`: `lastmod`/`changefreq` are optional strings and
`priority` an optional already-parsed number. -/
structure RawUrlItem where
  loc : String
  lastmod : Option String
  changefreq : Option String
  priority : Option Rat
  deriving Repr, DecidableEq

/-- The leaf-item mapping inside `parseSitemap`:
`{ loc: u.loc, lastmod: u.lastmod, changefreq: u.changefreq,
   priority: u.priority ? Number(u.priority) : undefined }`.
JS truthiness makes a priority of `0` fall to the `undefined` branch. -/
def mkEntry (u : RawUrlItem) : SitemapEntry :=
  { loc := u.loc
    lastmod := u.lastmod
    changefreq := u.changefreq
    priority :=
      match u.priority with
      | some p => if p ≠ 0 then some p else none
      | none => none }

/-- A sitemap body after XML parsing: `doc.sitemapindex?.sitemap`
(child sitemap locations, normalized to a list) and `doc.urlset?.url`
(leaf items, normalized to a list).  `parseSitemap` tests the index
field first; a document with neither field contributes nothing. -/
structure ParsedXml where
  sitemapindexSitemap : Option (List String)
  urlsetUrl : Option (List RawUrlItem)
  deriving Repr, DecidableEq

/-- The error thrown by `fetchXml`:
`Failed to fetch XML: ${url} (${res.status})`. -/
structure FetchErr where
  url : String
  status : Nat
  deriving Repr, DecidableEq

/-- The message carried by the thrown error. -/
def FetchErr.message (e : FetchErr) : String :=
  "Failed to fetch XML: " ++ e.url ++ " (" ++ toString e.status ++ ")"

/-- The network as `parseSitemap` sees it: finitely many URLs carry a
parseable XML body, every other URL produces a non-success HTTP status
given by `failStatus`. -/
structure Web where
  docs : List (String × ParsedXml)
  failStatus : String → Nat

/-- The successfully fetchable document at `u`, if any. -/
def Web.findDoc (w : Web) (u : String) : Option ParsedXml :=
  w.docs.lookup u

/-- `fetchXml` from `src/agent.ts`: a non-ok response throws an error
naming the URL and the status; otherwise the body is returned (already
composed here with the XML parser). -/
def fetchXml (w : Web) (u : String) : Except FetchErr ParsedXml :=
  match w.findDoc u with
  | some d => .ok d
  | none => .error ⟨u, w.failStatus u⟩

/-- The mutable state of one resolution call: `seen` is the `Set`
threaded through `parseSitemap`; `log` instruments the model with the
sequence of URLs handed to `fetchXml` (i.e. to `fetch`), in order. -/
structure RState where
  seen : List String
  log : List String
  deriving Repr, DecidableEq

/-- One resolver outcome: `none` is fuel exhaustion of the embedding,
`some (.error e)` the propagated `fetchXml` exception, `some (.ok _)` a
normal return with entries and final state. -/
abbrev PRes := Option (Except FetchErr (List SitemapEntry × RState))

/-- Sequencing of one child expansion with the expansion of the
remaining siblings: exhaustion and thrown errors propagate, successful
results are concatenated in listing order (`nested.flat()`). -/
def combineChild (r : PRes) (k : RState → PRes) : PRes :=
  match r with
  | none => none
  | some (.error e) => some (.error e)
  | some (.ok (es, st₂)) =>
    match k st₂ with
    | none => none
    | some (.error e) => some (.error e)
    | some (.ok (es₂, st₃)) => some (.ok (es ++ es₂, st₃))

/-- Dispatch on the parsed document shape, exactly in source order:
`doc.sitemapindex?.sitemap` first (index node, children expanded by
`k`), then `doc.urlset?.url` (leaf node, items mapped by `mkEntry`),
else the empty contribution. -/
def expandDoc (doc : ParsedXml) (st' : RState)
    (k : List String → RState → PRes) : PRes :=
  match doc.sitemapindexSitemap with
  | some children => k children st'
  | none =>
    match doc.urlsetUrl with
    | some items => some (.ok (items.map mkEntry, st'))
    | none => some (.ok ([], st'))

/-- The fetch step of one expansion: a thrown `fetchXml` error
propagates, a fetched document is dispatched on its shape. -/
def afterFetch (r : Except FetchErr ParsedXml) (st' : RState)
    (k : List String → RState → PRes) : PRes :=
  match r with
  | .error e => some (.error e)
  | .ok doc => expandDoc doc st' k

mutual
/-- Fuel-indexed embedding of `parseSitemap`.  Sibling expansions under
`Promise.all` are sequentialized in listing order (see the file
header). -/
def parseSitemapF (fuel : Nat) (w : Web) (url : String) (st : RState) : PRes :=
  if url ∈ st.seen then some (.ok ([], st))
  else
    match fuel with
    | 0 => none
    | fuel' + 1 =>
      afterFetch (fetchXml w url) ⟨url :: st.seen, st.log ++ [url]⟩
        (fun children st' => parseChildren fuel' w children st')

/-- Expansion of the children of a sitemap index in listing order. -/
def parseChildren (fuel : Nat) (w : Web) (cs : List String) (st : RState) : PRes :=
  match cs with
  | [] => some (.ok ([], st))
  | c :: rest =>
    match fuel with
    | 0 => none
    | fuel' + 1 =>
      combineChild (parseSitemapF fuel' w c st)
        (fun st₂ => parseChildren fuel' w rest st₂)
end

/-! ## The `sitemap_list` tool -/

/-- Output object of `sitemap_list.execute`. -/
structure SitemapListOut where
  count : Nat
  entries : List SitemapEntry
  deriving Repr, DecidableEq

/-- The `include` filter of `sitemap_list.execute`: applied only when
the given array is nonempty (JS `input.include?.length` truthiness);
keeps entries whose location contains at least one given substring. -/
def includeFilter (includes : Option (List String)) (es : List SitemapEntry) :
    List SitemapEntry :=
  match includes with
  | some ps =>
    if ps.length ≠ 0 then es.filter (fun x => ps.any (fun p => jsIncludes x.loc p)) else es
  | none => es

/-- The `exclude` filter of `sitemap_list.execute`: applied only when
the given array is nonempty; drops entries whose location contains any
given substring. -/
def excludeFilter (excludes : Option (List String)) (es : List SitemapEntry) :
    List SitemapEntry :=
  match excludes with
  | some ps =>
    if ps.length ≠ 0 then es.filter (fun x => !(ps.any (fun p => jsIncludes x.loc p))) else es
  | none => es

/-- The truncation of `sitemap_list.execute`: `slice(0, limit)` when
`input.limit` is truthy. -/
def limitSlice (limit : Option Nat) (es : List SitemapEntry) : List SitemapEntry :=
  match limit with
  | some l => if l ≠ 0 then es.take l else es
  | none => es

/-- The filtering chain of `sitemap_list.execute`, in source order:
scope filter first, then `include`, `exclude`, and the result cap. -/
def applyListFilters (includes excludes : Option (List String)) (limit : Option Nat)
    (es : List SitemapEntry) : List SitemapEntry :=
  limitSlice limit
    (excludeFilter excludes
      (includeFilter includes (es.filter (fun x => isDocsUrl x.loc))))

/-- `sitemap_list.execute` from `src/agent.ts`: resolve the sitemap at
`input.sitemapUrl ?? "https://coder.com/sitemap.xml"`, then apply the
filter chain and return `{count: entries.length, entries}`. -/
def sitemapListExecute (w : Web) (fuel : Nat) (sitemapUrl : Option String)
    (includes excludes : Option (List String)) (limit : Option Nat) :
    Option (Except FetchErr SitemapListOut) :=
  match parseSitemapF fuel w (sitemapUrl.getD "https://coder.com/sitemap.xml") ⟨[], []⟩ with
  | none => none
  | some (.error e) => some (.error e)
  | some (.ok (es, _)) =>
    let entries := applyListFilters includes excludes limit es
    some (.ok ⟨entries.length, entries⟩)

/-! ### Example webs used to evaluate the resolver on concrete trees -/

/-- A sitemap index that lists itself as its first child and a docs
leaf as its second. -/
def wSelfCycle : Web :=
  { docs :=
      [("https://coder.com/sitemap.xml",
        ⟨some ["https://coder.com/sitemap.xml", "https://coder.com/docs.xml"], none⟩),
       ("https://coder.com/docs.xml",
        ⟨none, some [⟨"https://coder.com/docs/about", none, none, none⟩]⟩)]
    failStatus := fun _ => 404 }

/-- An index with one fetchable leaf and one URL whose fetch fails. -/
def wBadBranch : Web :=
  { docs :=
      [("https://coder.com/sitemap.xml",
        ⟨some ["https://coder.com/bad.xml", "https://coder.com/good.xml"], none⟩),
       ("https://coder.com/good.xml",
        ⟨none, some [⟨"https://coder.com/docs/good", none, none, none⟩]⟩)]
    failStatus := fun _ => 404 }

/-- A web whose default root sitemap is a single docs leaf. -/
def wRootOnly : Web :=
  { docs :=
      [("https://coder.com/sitemap.xml",
        ⟨none, some [⟨"https://coder.com/docs/about", none, none, none⟩]⟩)]
    failStatus := fun _ => 404 }

/-- A two-level index `{A: [leaf1, leaf2]}` with leaf1 yielding p1, p2
and leaf2 yielding p3. -/
def wTwoLevel : Web :=
  { docs :=
      [("https://coder.com/sitemap.xml",
        ⟨some ["https://coder.com/a.xml", "https://coder.com/b.xml"], none⟩),
       ("https://coder.com/a.xml",
        ⟨none, some [⟨"https://coder.com/docs/p1", none, none, none⟩,
                     ⟨"https://coder.com/docs/p2", none, none, none⟩]⟩),
       ("https://coder.com/b.xml",
        ⟨none, some [⟨"https://coder.com/docs/p3", none, none, none⟩]⟩)]
    failStatus := fun _ => 404 }

/-! ## Section extractor (`page_section.execute`)

The HTML document is embedded as the flat sequence of sibling elements
that `node-html-parser` exposes to the extraction loop: the code
collects every `h1`..`h6` element in document order and then walks
`nextElementSibling` from the matched heading, so a document whose body
is one sibling sequence is modelled by the list of its elements. -/

/-- One HTML element as the extractor reads it.  `tag` is the tag name
already lower-cased; `idAttr` is `getAttribute("id")`;
`nestedAnchorId` is `querySelector("a[id]")?.getAttribute("id")`;
`text` is the `.text` accessor; `serialized` is `.toString()`. -/
structure HNode where
  tag : String
  idAttr : Option String
  nestedAnchorId : Option String
  text : String
  serialized : String
  deriving Repr, DecidableEq

/-- Tags matched by `querySelectorAll("h1, h2, h3, h4, h5, h6")` and by
the sibling-loop test `tag.match(/^h[1-6]$/)`. -/
def isHeadingTag (t : String) : Bool :=
  t == "h1" || t == "h2" || t == "h3" || t == "h4" || t == "h5" || t == "h6"

/-- `levelOf` from `page_section.execute`: the digit of `h1`..`h6`,
and 6 for anything else (the regex fails to match). -/
def levelOf (tag : String) : Nat :=
  if tag = "h1" then 1
  else if tag = "h2" then 2
  else if tag = "h3" then 3
  else if tag = "h4" then 4
  else if tag = "h5" then 5
  else 6

/-- The heading identifier:
`h.getAttribute("id") ?? h.querySelector("a[id]")?.getAttribute("id") ?? null`. -/
def headingId (h : HNode) : Option String :=
  match h.idAttr with
  | some s => some s
  | none => h.nestedAnchorId

/-- The per-heading match test of the locator scan:
`(anchorId && id === anchorId) ||
 (headingText && txt.toLowerCase() === headingText.toLowerCase())`,
where `txt = h.text.trim()`.  A supplied empty string is falsy in JS
and therefore never matches. -/
def matchesLocator (anchorId headingText : Option String) (h : HNode) : Bool :=
  (match anchorId with
   | some a => a ≠ "" && headingId h == some a
   | none => false) ||
  (match headingText with
   | some t => t ≠ "" && jsToLower (jsTrim h.text) == jsToLower t
   | none => false)

/-- The scan for `targetIndex`: the first heading element matching the
locator, returned together with the sibling elements that follow it. -/
def findHeading (anchorId headingText : Option String) :
    List HNode → Option (HNode × List HNode)
  | [] => none
  | n :: rest =>
    if isHeadingTag n.tag && matchesLocator anchorId headingText n then some (n, rest)
    else findHeading anchorId headingText rest

/-- The sibling-accumulation loop of `page_section.execute`, carrying
the accumulated markup `htmlOut` and the `codeBlocks` / `textChunks`
arrays.  The loop stops at a heading of numerically smaller-or-equal
level, or when appending the next serialized node would push `htmlOut`
past `maxLen`. -/
def accumLoop (targetLevel maxLen : Nat) (nodes : List HNode)
    (htmlOut : String) (codeBlocks textChunks : List String) :
    String × List String × List String :=
  match nodes with
  | [] => (htmlOut, codeBlocks, textChunks)
  | node :: rest =>
    if isHeadingTag node.tag && decide (levelOf node.tag ≤ targetLevel) then
      (htmlOut, codeBlocks, textChunks)
    else
      if htmlOut.length + node.serialized.length > maxLen then
        (htmlOut, codeBlocks, textChunks)
      else
        accumLoop targetLevel maxLen rest (htmlOut ++ node.serialized)
          (if node.tag == "pre" || node.tag == "code"
           then codeBlocks ++ [jsTrim node.text] else codeBlocks)
          (if jsTrim node.text ≠ "" then textChunks ++ [jsTrim node.text] else textChunks)

/-- The `found: true` payload of `page_section.execute`. -/
structure SectionOk where
  anchorId : Option String
  heading : String
  html : String
  text : String
  codeBlocks : List String
  deriving Repr, DecidableEq

/-- The result object of the extraction: `{found: false, reason}` or
the `found: true` payload. -/
inductive SectionResult where
  | notFound (reason : String)
  | ok (s : SectionOk)
  deriving Repr, DecidableEq

/-- The extraction logic of `page_section.execute` after the page has
been fetched and parsed: locate the first matching heading, then
accumulate its following siblings.  `maxLen` is `maxChars ?? 5000`;
`text` is `textChunks.join("\n\n")`; the returned `anchorId` is
`anchorId ?? start.getAttribute("id") ?? start.querySelector(...)`. -/
def extractSection (nodes : List HNode) (anchorId headingText : Option String)
    (maxChars : Option Nat) : SectionResult :=
  match findHeading anchorId headingText nodes with
  | none => .notFound "Section not found by anchorId or headingText."
  | some (start, rest) =>
    let targetLevel := levelOf start.tag
    let maxLen := maxChars.getD 5000
    let acc := accumLoop targetLevel maxLen rest "" [] []
    .ok
      { anchorId :=
          match anchorId with
          | some a => some a
          | none => headingId start
        heading := jsTrim start.text
        html := acc.1
        text := jsJoin "\n\n" acc.2.2
        codeBlocks := acc.2.1 }

/-- Errors thrown by `page_section.execute` before extraction begins. -/
inductive PageErr where
  | scope
  | fetchFail (url : String) (status : Nat)
  deriving Repr, DecidableEq

/-- `page_section.execute` from `src/agent.ts`, with the page network
abstracted as `pages` (status on failure, parsed sibling sequence on
success): the URL is rejected before any fetch when `isDocsUrl` fails
(`throw new Error("Only coder.com/docs URLs are supported")`), then the
page is fetched and the extraction runs. -/
def pageSectionExecute (pages : String → Except Nat (List HNode)) (url : String)
    (anchorId headingText : Option String) (maxChars : Option Nat) :
    Except PageErr SectionResult :=
  if !isDocsUrl url then .error .scope
  else
    match pages url with
    | .error status => .error (.fetchFail url status)
    | .ok nodes => .ok (extractSection nodes anchorId headingText maxChars)

/-! ## Resolver lemmas -/

theorem fetchXml_ok {w : Web} {u : String} {d : ParsedXml} :
    fetchXml w u = .ok d ↔ w.findDoc u = some d := by
  unfold fetchXml
  cases h : w.findDoc u <;> simp

theorem fetchXml_error {w : Web} {u : String} {e : FetchErr} :
    fetchXml w u = .error e ↔ w.findDoc u = none ∧ e = ⟨u, w.failStatus u⟩ := by
  unfold fetchXml
  cases h : w.findDoc u <;> simp [eq_comm]

theorem psf_mem {url : String} {st : RState} (fuel : Nat) (w : Web)
    (h : url ∈ st.seen) : parseSitemapF fuel w url st = some (.ok ([], st)) := by
  unfold parseSitemapF
  simp [h]

theorem psf_zero {url : String} {st : RState} (w : Web) (h : url ∉ st.seen) :
    parseSitemapF 0 w url st = none := by
  unfold parseSitemapF
  simp [h]

theorem psf_succ {url : String} {st : RState} (fuel' : Nat) (w : Web)
    (h : url ∉ st.seen) :
    parseSitemapF (fuel' + 1) w url st =
      afterFetch (fetchXml w url) ⟨url :: st.seen, st.log ++ [url]⟩
        (fun children st' => parseChildren fuel' w children st') := by
  conv_lhs => unfold parseSitemapF
  simp [h]

theorem pchildren_nil (fuel : Nat) (w : Web) (st : RState) :
    parseChildren fuel w [] st = some (.ok ([], st)) := by
  conv_lhs => unfold parseChildren

theorem pchildren_zero (w : Web) (c : String) (rest : List String) (st : RState) :
    parseChildren 0 w (c :: rest) st = none := by
  conv_lhs => unfold parseChildren

theorem pchildren_succ (fuel' : Nat) (w : Web) (c : String) (rest : List String)
    (st : RState) :
    parseChildren (fuel' + 1) w (c :: rest) st =
      combineChild (parseSitemapF fuel' w c st)
        (fun st₂ => parseChildren fuel' w rest st₂) := by
  conv_lhs => unfold parseChildren

theorem afterFetch_error {e : FetchErr} {st' : RState} {k : List String → RState → PRes} :
    afterFetch (.error e) st' k = some (.error e) := rfl

theorem afterFetch_ok {doc : ParsedXml} {st' : RState} {k : List String → RState → PRes} :
    afterFetch (.ok doc) st' k = expandDoc doc st' k := rfl

theorem expandDoc_index {doc : ParsedXml} {children : List String} {st' : RState}
    {k : List String → RState → PRes} (h : doc.sitemapindexSitemap = some children) :
    expandDoc doc st' k = k children st' := by
  unfold expandDoc
  rw [h]

theorem expandDoc_leaf {doc : ParsedXml} {items : List RawUrlItem} {st' : RState}
    {k : List String → RState → PRes} (hi : doc.sitemapindexSitemap = none)
    (hu : doc.urlsetUrl = some items) :
    expandDoc doc st' k = some (.ok (items.map mkEntry, st')) := by
  unfold expandDoc
  rw [hi, hu]

theorem expandDoc_other {doc : ParsedXml} {st' : RState}
    {k : List String → RState → PRes} (hi : doc.sitemapindexSitemap = none)
    (hu : doc.urlsetUrl = none) :
    expandDoc doc st' k = some (.ok ([], st')) := by
  unfold expandDoc
  rw [hi, hu]

theorem combineChild_none {k : RState → PRes} : combineChild none k = none := rfl

theorem combineChild_error {e : FetchErr} {k : RState → PRes} :
    combineChild (some (.error e)) k = some (.error e) := rfl

theorem combineChild_ok {es : List SitemapEntry} {st₂ : RState} {k : RState → PRes} :
    combineChild (some (.ok (es, st₂))) k =
      (match k st₂ with
       | none => none
       | some (.error e) => some (.error e)
       | some (.ok (es₂, st₃)) => some (.ok (es ++ es₂, st₃))) := rfl

theorem combineChild_ok_none {es : List SitemapEntry} {st₂ : RState}
    {k : RState → PRes} (h : k st₂ = none) :
    combineChild (some (.ok (es, st₂))) k = none := by
  rw [combineChild_ok, h]

theorem combineChild_ok_error {es : List SitemapEntry} {st₂ : RState} {e : FetchErr}
    {k : RState → PRes} (h : k st₂ = some (.error e)) :
    combineChild (some (.ok (es, st₂))) k = some (.error e) := by
  rw [combineChild_ok, h]

theorem combineChild_ok_ok {es es₂ : List SitemapEntry} {st₂ st₃ : RState}
    {k : RState → PRes} (h : k st₂ = some (.ok (es₂, st₃))) :
    combineChild (some (.ok (es, st₂))) k = some (.ok (es ++ es₂, st₃)) := by
  rw [combineChild_ok, h]

/-- Results are stable under extra fuel: once the recursion completes
within some fuel budget, more fuel returns the same value. -/
theorem parseSitemap_mono (fuel : Nat) (w : Web) :
    (∀ url st r, parseSitemapF fuel w url st = some r →
       parseSitemapF (fuel + 1) w url st = some r) ∧
    (∀ cs st r, parseChildren fuel w cs st = some r →
       parseChildren (fuel + 1) w cs st = some r) := by
  induction fuel with
  | zero =>
    constructor
    · intro url st r h
      by_cases hm : url ∈ st.seen
      · rw [psf_mem 0 w hm] at h
        rw [psf_mem 1 w hm]
        exact h
      · rw [psf_zero w hm] at h
        cases h
    · intro cs st r h
      match cs with
      | [] =>
        rw [pchildren_nil] at h
        rw [pchildren_nil]
        exact h
      | c :: rest =>
        rw [pchildren_zero] at h
        cases h
  | succ f ih =>
    constructor
    · intro url st r h
      by_cases hm : url ∈ st.seen
      · rw [psf_mem (f + 1) w hm] at h
        rw [psf_mem (f + 1 + 1) w hm]
        exact h
      · rw [psf_succ f w hm] at h
        rw [psf_succ (f + 1) w hm]
        cases hfe : fetchXml w url with
        | error e =>
          rw [hfe, afterFetch_error] at h
          rw [afterFetch_error]
          exact h
        | ok doc =>
          rw [hfe, afterFetch_ok] at h
          rw [afterFetch_ok]
          cases hidx : doc.sitemapindexSitemap with
          | some children =>
            rw [expandDoc_index hidx] at h
            rw [expandDoc_index hidx]
            exact ih.2 children _ r h
          | none =>
            cases hurl : doc.urlsetUrl with
            | some items =>
              rw [expandDoc_leaf hidx hurl] at h
              rw [expandDoc_leaf hidx hurl]
              exact h
            | none =>
              rw [expandDoc_other hidx hurl] at h
              rw [expandDoc_other hidx hurl]
              exact h
    · intro cs st r h
      match cs with
      | [] =>
        rw [pchildren_nil] at h
        rw [pchildren_nil]
        exact h
      | c :: rest =>
        rw [pchildren_succ f w c rest st] at h
        rw [pchildren_succ (f + 1) w c rest st]
        cases hc : parseSitemapF f w c st with
        | none =>
          rw [hc, combineChild_none] at h
          cases h
        | some rc =>
          rw [hc] at h
          rw [ih.1 c st rc hc]
          cases rc with
          | error e =>
            rw [combineChild_error] at h
            rw [combineChild_error]
            exact h
          | ok p =>
            obtain ⟨es, st₂⟩ := p
            rw [combineChild_ok] at h
            rw [combineChild_ok]
            cases hr : parseChildren f w rest st₂ with
            | none => rw [hr] at h; cases h
            | some rr =>
              rw [hr] at h
              rw [ih.2 rest st₂ rr hr]
              exact h

/-- How the resolution state evolves across a successful (sub)expansion:
the visited set only grows, and the fetch log grows by a duplicate-free
block of URLs that were unvisited at the start, are visited at the end,
and all carried a fetchable document (a fetch that fails ends the whole
call with an error instead). -/
def Evolves (w : Web) (st st' : RState) : Prop :=
  st.seen ⊆ st'.seen ∧
  ∃ nl, st'.log = st.log ++ nl ∧ nl.Nodup ∧
    ∀ u ∈ nl, u ∈ st'.seen ∧ u ∉ st.seen ∧ w.findDoc u ≠ none

theorem Evolves.refl (w : Web) (st : RState) : Evolves w st st :=
  ⟨fun _ h => h, [], by simp, List.nodup_nil, by simp⟩

theorem Evolves.trans {w : Web} {st₁ st₂ st₃ : RState}
    (h₁ : Evolves w st₁ st₂) (h₂ : Evolves w st₂ st₃) : Evolves w st₁ st₃ := by
  obtain ⟨hs₁, nl₁, hl₁, hd₁, hp₁⟩ := h₁
  obtain ⟨hs₂, nl₂, hl₂, hd₂, hp₂⟩ := h₂
  refine ⟨fun u hu => hs₂ (hs₁ hu), nl₁ ++ nl₂, ?_, ?_, ?_⟩
  · rw [hl₂, hl₁, List.append_assoc]
  · rw [List.nodup_append]
    refine ⟨hd₁, hd₂, fun u hu₁ hu₂ => ?_⟩
    exact (hp₂ u hu₂).2.1 ((hp₁ u hu₁).1)
  · intro u hu
    rcases List.mem_append.mp hu with hu₁ | hu₂
    · obtain ⟨ha, hb, hc⟩ := hp₁ u hu₁
      exact ⟨hs₂ ha, hb, hc⟩
    · obtain ⟨ha, hb, hc⟩ := hp₂ u hu₂
      exact ⟨ha, fun hmem => hb (hs₁ hmem), hc⟩

theorem Evolves.fetchStep {w : Web} {st : RState} {url : String}
    (hm : url ∉ st.seen) (hd : w.findDoc url ≠ none) :
    Evolves w st ⟨url :: st.seen, st.log ++ [url]⟩ := by
  refine ⟨fun u hu => List.mem_cons_of_mem url hu, [url], rfl, List.nodup_singleton url, ?_⟩
  intro u hu
  rw [List.mem_singleton] at hu
  subst hu
  exact ⟨List.mem_cons_self _ _, hm, hd⟩

/-- A successful expansion evolves the state (joint statement for the
two mutually recursive functions). -/
theorem parseSitemap_evolves (fuel : Nat) (w : Web) :
    (∀ url st es st', parseSitemapF fuel w url st = some (.ok (es, st')) →
       Evolves w st st') ∧
    (∀ cs st es st', parseChildren fuel w cs st = some (.ok (es, st')) →
       Evolves w st st') := by
  induction fuel with
  | zero =>
    constructor
    · intro url st es st' h
      by_cases hm : url ∈ st.seen
      · rw [psf_mem 0 w hm] at h
        obtain ⟨_, rfl⟩ : es = [] ∧ st = st' := by
          simpa using h
        exact Evolves.refl w st
      · rw [psf_zero w hm] at h
        cases h
    · intro cs st es st' h
      match cs with
      | [] =>
        rw [pchildren_nil] at h
        obtain ⟨_, rfl⟩ : es = [] ∧ st = st' := by
          simpa using h
        exact Evolves.refl w st
      | c :: rest =>
        rw [pchildren_zero] at h
        cases h
  | succ f ih =>
    constructor
    · intro url st es st' h
      by_cases hm : url ∈ st.seen
      · rw [psf_mem (f + 1) w hm] at h
        obtain ⟨_, rfl⟩ : es = [] ∧ st = st' := by
          simpa using h
        exact Evolves.refl w st
      · rw [psf_succ f w hm] at h
        cases hfe : fetchXml w url with
        | error e =>
          rw [hfe, afterFetch_error] at h
          cases h
        | ok doc =>
          have hd : w.findDoc url ≠ none := by
            rw [fetchXml_ok.mp hfe]
            simp
          have hstep := Evolves.fetchStep hm hd
          rw [hfe, afterFetch_ok] at h
          cases hidx : doc.sitemapindexSitemap with
          | some children =>
            rw [expandDoc_index hidx] at h
            exact hstep.trans (ih.2 children _ es st' h)
          | none =>
            cases hurl : doc.urlsetUrl with
            | some items =>
              rw [expandDoc_leaf hidx hurl] at h
              obtain ⟨_, rfl⟩ : items.map mkEntry = es ∧
                  (⟨url :: st.seen, st.log ++ [url]⟩ : RState) = st' := by
                simpa using h
              exact hstep
            | none =>
              rw [expandDoc_other hidx hurl] at h
              obtain ⟨_, rfl⟩ : es = [] ∧
                  (⟨url :: st.seen, st.log ++ [url]⟩ : RState) = st' := by
                simpa using h
              exact hstep
    · intro cs st es st' h
      match cs with
      | [] =>
        rw [pchildren_nil] at h
        obtain ⟨_, rfl⟩ : es = [] ∧ st = st' := by
          simpa using h
        exact Evolves.refl w st
      | c :: rest =>
        rw [pchildren_succ f w c rest st] at h
        cases hc : parseSitemapF f w c st with
        | none =>
          rw [hc, combineChild_none] at h
          cases h
        | some rc =>
          rw [hc] at h
          cases rc with
          | error e =>
            rw [combineChild_error] at h
            cases h
          | ok p =>
            obtain ⟨es₁, st₂⟩ := p
            rw [combineChild_ok] at h
            cases hr : parseChildren f w rest st₂ with
            | none =>
              rw [hr] at h
              cases h
            | some rr =>
              rw [hr] at h
              cases rr with
              | error e => cases h
              | ok q =>
                obtain ⟨es₂, st₃⟩ := q
                obtain ⟨_, rfl⟩ : es₁ ++ es₂ = es ∧ st₃ = st' := by
                  simpa using h
                exact (ih.1 c st es₁ st₂ hc).trans (ih.2 rest st₂ es₂ st₃ hr)

/-- An error outcome always is the `fetchXml` exception of a URL whose
fetch failed, carrying that URL's failure status (joint statement for
the two mutually recursive functions). -/
theorem parseSitemap_error_characterization (fuel : Nat) (w : Web) :
    (∀ url st e, parseSitemapF fuel w url st = some (.error e) →
       w.findDoc e.url = none ∧ e.status = w.failStatus e.url) ∧
    (∀ cs st e, parseChildren fuel w cs st = some (.error e) →
       w.findDoc e.url = none ∧ e.status = w.failStatus e.url) := by
  induction fuel with
  | zero =>
    constructor
    · intro url st e h
      by_cases hm : url ∈ st.seen
      · rw [psf_mem 0 w hm] at h
        cases h
      · rw [psf_zero w hm] at h
        cases h
    · intro cs st e h
      match cs with
      | [] =>
        rw [pchildren_nil] at h
        cases h
      | c :: rest =>
        rw [pchildren_zero] at h
        cases h
  | succ f ih =>
    constructor
    · intro url st e h
      by_cases hm : url ∈ st.seen
      · rw [psf_mem (f + 1) w hm] at h
        cases h
      · rw [psf_succ f w hm] at h
        cases hfe : fetchXml w url with
        | error e' =>
          rw [hfe, afterFetch_error] at h
          obtain rfl : e' = e := by simpa using h
          obtain ⟨hu, rfl⟩ := fetchXml_error.mp hfe
          exact ⟨hu, rfl⟩
        | ok doc =>
          rw [hfe, afterFetch_ok] at h
          cases hidx : doc.sitemapindexSitemap with
          | some children =>
            rw [expandDoc_index hidx] at h
            exact ih.2 children _ e h
          | none =>
            cases hurl : doc.urlsetUrl with
            | some items =>
              rw [expandDoc_leaf hidx hurl] at h
              cases h
            | none =>
              rw [expandDoc_other hidx hurl] at h
              cases h
    · intro cs st e h
      match cs with
      | [] =>
        rw [pchildren_nil] at h
        cases h
      | c :: rest =>
        rw [pchildren_succ f w c rest st] at h
        cases hc : parseSitemapF f w c st with
        | none =>
          rw [hc, combineChild_none] at h
          cases h
        | some rc =>
          rw [hc] at h
          cases rc with
          | error e' =>
            rw [combineChild_error] at h
            obtain rfl : e' = e := by simpa using h
            exact ih.1 c st e' hc
          | ok p =>
            obtain ⟨es₁, st₂⟩ := p
            rw [combineChild_ok] at h
            cases hr : parseChildren f w rest st₂ with
            | none =>
              rw [hr] at h
              cases h
            | some rr =>
              rw [hr] at h
              cases rr with
              | error e' =>
                obtain rfl : e' = e := by simpa using h
                exact ih.2 rest st₂ e' hr
              | ok q =>
                obtain ⟨es₂, st₃⟩ := q
                cases h

/-- Stability under any larger fuel budget. -/
theorem psf_mono_le {f f' : Nat} (h : f ≤ f') (w : Web) {url : String}
    {st : RState} {r : Except FetchErr (List SitemapEntry × RState)}
    (hr : parseSitemapF f w url st = some r) :
    parseSitemapF f' w url st = some r := by
  induction f' with
  | zero =>
    have : f = 0 := Nat.le_zero.mp h
    subst this
    exact hr
  | succ n ih =>
    rcases Nat.lt_or_ge f (n + 1) with hlt | hge
    · exact (parseSitemap_mono n w).1 url st r (ih (Nat.lt_succ_iff.mp hlt))
    · have : f = n + 1 := Nat.le_antisymm h hge
      subst this
      exact hr

/-! ## Termination of the resolution recursion -/

/-- The URLs at which a fetch can succeed. -/
def sitemapKeys (w : Web) : List String := w.docs.map Prod.fst

/-- Number of fetchable sitemap URLs not yet visited: the measure that
shrinks at every real expansion step. -/
def unvisited (w : Web) (seen : List String) : Nat :=
  ((sitemapKeys w).toFinset \ seen.toFinset).card

/-- The widest child list of any index document on this web. -/
def maxFan (w : Web) : Nat :=
  (w.docs.map fun d =>
    match d.2.sitemapindexSitemap with
    | some cs => cs.length
    | none => 0).foldr max 0

theorem lookup_mem {α : Type} [DecidableEq α] {β : Type} {l : List (α × β)} {u : α}
    {d : β} (h : l.lookup u = some d) : (u, d) ∈ l := by
  induction l with
  | nil => cases h
  | cons hd tl ih =>
    obtain ⟨k, v⟩ := hd
    rw [List.lookup] at h
    by_cases hk : u = k
    · subst hk
      simp at h
      subst h
      exact List.mem_cons_self _ _
    · have : (u == k) = false := beq_false_of_ne hk
      rw [this] at h
      exact List.mem_cons_of_mem _ (ih h)

theorem findDoc_mem {w : Web} {u : String} {d : ParsedXml}
    (h : w.findDoc u = some d) : (u, d) ∈ w.docs :=
  lookup_mem h

theorem findDoc_key_mem {w : Web} {u : String} {d : ParsedXml}
    (h : w.findDoc u = some d) : u ∈ sitemapKeys w := by
  exact List.mem_map.mpr ⟨(u, d), findDoc_mem h, rfl⟩

theorem le_foldr_max {x : Nat} {l : List Nat} (h : x ∈ l) : x ≤ l.foldr max 0 := by
  induction l with
  | nil => cases h
  | cons hd tl ih =>
    rcases List.mem_cons.mp h with rfl | hmem
    · exact Nat.le_max_left _ _
    · exact Nat.le_trans (ih hmem) (Nat.le_max_right _ _)

theorem fan_bound {w : Web} {u : String} {d : ParsedXml} {cs : List String}
    (hd : w.findDoc u = some d) (hc : d.sitemapindexSitemap = some cs) :
    cs.length ≤ maxFan w := by
  apply le_foldr_max
  apply List.mem_map.mpr
  refine ⟨(u, d), findDoc_mem hd, ?_⟩
  simp [hc]

theorem unvisited_lt {w : Web} {url : String} {seen : List String}
    (hk : url ∈ sitemapKeys w) (hn : url ∉ seen) :
    unvisited w (url :: seen) < unvisited w seen := by
  apply Finset.card_lt_card
  rw [Finset.ssubset_iff_of_subset]
  · refine ⟨url, ?_, ?_⟩
    · rw [Finset.mem_sdiff]
      constructor
      · exact List.mem_toFinset.mpr hk
      · intro hmem
        exact hn (List.mem_toFinset.mp hmem)
    · intro hmem
      rw [Finset.mem_sdiff] at hmem
      apply hmem.2
      rw [List.toFinset_cons]
      exact Finset.mem_insert_self _ _
  · intro x hx
    rw [Finset.mem_sdiff] at hx ⊢
    refine ⟨hx.1, fun hmem => hx.2 ?_⟩
    rw [List.toFinset_cons]
    exact Finset.mem_insert_of_mem hmem

theorem unvisited_mono {w : Web} {seen seen' : List String}
    (h : seen ⊆ seen') : unvisited w seen' ≤ unvisited w seen := by
  apply Finset.card_le_card
  intro x hx
  rw [Finset.mem_sdiff] at hx ⊢
  refine ⟨hx.1, fun hmem => hx.2 ?_⟩
  exact List.mem_toFinset.mpr (h (List.mem_toFinset.mp hmem))

/-- Inner step of the termination argument: if every unvisited count of
at most `n` lets `parseSitemapF` complete, then `parseChildren`
completes on any child list once the fuel also covers its length. -/
theorem pchildren_total_of (w : Web) (n : Nat)
    (hpsf : ∀ url st fuel, unvisited w st.seen ≤ n →
      (n + 1) * (maxFan w + 1) ≤ fuel → parseSitemapF fuel w url st ≠ none) :
    ∀ cs st fuel, unvisited w st.seen ≤ n →
      cs.length + (n + 1) * (maxFan w + 1) ≤ fuel →
      parseChildren fuel w cs st ≠ none := by
  intro cs
  induction cs with
  | nil =>
    intro st fuel _ _
    rw [pchildren_nil]
    simp
  | cons c rest ih =>
    intro st fuel hn hf
    have hpos : 1 ≤ (n + 1) * (maxFan w + 1) :=
      Nat.one_le_iff_ne_zero.mpr (Nat.mul_ne_zero (Nat.succ_ne_zero n) (Nat.succ_ne_zero _))
    obtain ⟨fuel', rfl⟩ : ∃ f', fuel = f' + 1 := by
      refine ⟨fuel - 1, ?_⟩
      have : 1 ≤ fuel := le_trans hpos (le_trans (Nat.le_add_left _ _) hf)
      omega
    rw [pchildren_succ]
    cases hc : parseSitemapF fuel' w c st with
    | none =>
      exfalso
      apply hpsf c st fuel' hn ?_ hc
      have := hf
      simp only [List.length_cons] at this
      omega
    | some rc =>
      cases rc with
      | error e => rw [combineChild_error]; simp
      | ok p =>
        obtain ⟨es, st₂⟩ := p
        rw [combineChild_ok]
        have hev := (parseSitemap_evolves fuel' w).1 c st es st₂ hc
        have hn₂ : unvisited w st₂.seen ≤ n := le_trans (unvisited_mono hev.1) hn
        cases hr : parseChildren fuel' w rest st₂ with
        | none =>
          exfalso
          apply ih st₂ fuel' hn₂ ?_ hr
          have := hf
          simp only [List.length_cons] at this
          omega
        | some rr =>
          cases rr with
          | error e => simp
          | ok q =>
            obtain ⟨es₂, st₃⟩ := q
            simp

/-- The resolution recursion cannot exhaust its fuel once the budget
covers the number of unvisited fetchable sitemap URLs: this is the
termination of `parseSitemap`, whose real recursion depth is bounded by
the visited-set guard. -/
theorem psf_total (w : Web) :
    ∀ n url st fuel, unvisited w st.seen ≤ n →
      (n + 1) * (maxFan w + 1) ≤ fuel → parseSitemapF fuel w url st ≠ none := by
  intro n
  induction n with
  | zero =>
    intro url st fuel hn hf
    by_cases hm : url ∈ st.seen
    · rw [psf_mem fuel w hm]
      simp
    · obtain ⟨fuel', rfl⟩ : ∃ f', fuel = f' + 1 := by
        refine ⟨fuel - 1, ?_⟩
        have : 1 ≤ fuel := le_trans (by omega) hf
        omega
      rw [psf_succ fuel' w hm]
      cases hfe : fetchXml w url with
      | error e => rw [afterFetch_error]; simp
      | ok doc =>
        exfalso
        have hk : url ∈ sitemapKeys w := findDoc_key_mem (fetchXml_ok.mp hfe)
        have := unvisited_lt hk hm
        omega
    | succ n ih =>
    intro url st fuel hn hf
    by_cases hm : url ∈ st.seen
    · rw [psf_mem fuel w hm]
      simp
    · obtain ⟨fuel', rfl⟩ : ∃ f', fuel = f' + 1 := by
        refine ⟨fuel - 1, ?_⟩
        have hpos : 1 ≤ (n + 1 + 1) * (maxFan w + 1) :=
          Nat.one_le_iff_ne_zero.mpr (Nat.mul_ne_zero (Nat.succ_ne_zero _) (Nat.succ_ne_zero _))
        omega
      rw [psf_succ fuel' w hm]
      cases hfe : fetchXml w url with
      | error e => rw [afterFetch_error]; simp
      | ok doc =>
        rw [afterFetch_ok]
        have hdoc : w.findDoc url = some doc := fetchXml_ok.mp hfe
        have hk : url ∈ sitemapKeys w := findDoc_key_mem hdoc
        have hdec : unvisited w (url :: st.seen) ≤ n := by
          have := unvisited_lt hk hm
          omega
        cases hidx : doc.sitemapindexSitemap with
        | some children =>
          rw [expandDoc_index hidx]
          apply pchildren_total_of w n ih children _ fuel' hdec
          have hfan : children.length ≤ maxFan w := fan_bound hdoc hidx
          have hexp : (n + 1 + 1) * (maxFan w + 1) =
              (n + 1) * (maxFan w + 1) + (maxFan w + 1) := by ring
          omega
        | none =>
          cases hurl : doc.urlsetUrl with
          | some items =>
            rw [expandDoc_leaf hidx hurl]
            simp
          | none =>
            rw [expandDoc_other hidx hurl]
            simp

/-! ## Extractor lemmas -/

/-- The locator-match relation, as the specification words it: the node
is a heading element whose identifier equals the supplied anchor id, or
whose trimmed text equals the supplied heading text case-insensitively,
with the locator field non-empty (the source tests it for JS
truthiness). -/
def MatchesSpec (anchorId headingText : Option String) (h : HNode) : Prop :=
  isHeadingTag h.tag = true ∧
  ((∃ a, anchorId = some a ∧ a ≠ "" ∧ headingId h = some a) ∨
   (∃ t, headingText = some t ∧ t ≠ "" ∧ jsToLower (jsTrim h.text) = jsToLower t))

theorem matchesLocator_iff (anchorId headingText : Option String) (h : HNode) :
    (isHeadingTag h.tag && matchesLocator anchorId headingText h) = true ↔
      MatchesSpec anchorId headingText h := by
  unfold matchesLocator MatchesSpec
  cases anchorId with
  | none =>
    cases headingText with
    | none => simp
    | some t => simp
  | some a =>
    cases headingText with
    | none => simp
    | some t => simp [and_or_left]

theorem findHeading_eq_none {anchorId headingText : Option String}
    {nodes : List HNode} :
    findHeading anchorId headingText nodes = none ↔
      ∀ n ∈ nodes, ¬ MatchesSpec anchorId headingText n := by
  induction nodes with
  | nil => simp [findHeading]
  | cons n rest ih =>
    rw [findHeading]
    by_cases hm : (isHeadingTag n.tag && matchesLocator anchorId headingText n) = true
    · rw [if_pos hm]
      simp only [List.mem_cons]
      constructor
      · intro h
        cases h
      · intro h
        exact absurd ((matchesLocator_iff _ _ n).mp hm) (h n (Or.inl rfl))
    · rw [if_neg hm]
      rw [ih]
      simp only [List.mem_cons]
      constructor
      · intro h m hm'
        rcases hm' with rfl | hmem
        · rw [matchesLocator_iff] at hm
          exact hm
        · exact h m hmem
      · intro h m hmem
        exact h m (Or.inr hmem)

theorem findHeading_first {anchorId headingText : Option String}
    {pre post : List HNode} {h : HNode}
    (hpre : ∀ n ∈ pre, ¬ MatchesSpec anchorId headingText n)
    (hmatch : MatchesSpec anchorId headingText h) :
    findHeading anchorId headingText (pre ++ h :: post) = some (h, post) := by
  induction pre with
  | nil =>
    rw [List.nil_append, findHeading,
      if_pos ((matchesLocator_iff _ _ h).mpr hmatch)]
  | cons m rest ih =>
    rw [List.cons_append, findHeading]
    have hm : ¬ (isHeadingTag m.tag && matchesLocator anchorId headingText m) = true := by
      intro hcontra
      exact hpre m (List.mem_cons_self _ _) ((matchesLocator_iff _ _ m).mp hcontra)
    rw [if_neg hm]
    exact ih fun n hn => hpre n (List.mem_cons_of_mem _ hn)

/-- The accumulated markup never exceeds the size limit. -/
theorem accumLoop_length_le (targetLevel maxLen : Nat) :
    ∀ (nodes : List HNode) (htmlOut : String) (codeBlocks textChunks : List String),
      htmlOut.length ≤ maxLen →
      (accumLoop targetLevel maxLen nodes htmlOut codeBlocks textChunks).1.length ≤ maxLen := by
  intro nodes
  induction nodes with
  | nil =>
    intro htmlOut codeBlocks textChunks hle
    rw [accumLoop]
    exact hle
  | cons node rest ih =>
    intro htmlOut codeBlocks textChunks hle
    rw [accumLoop]
    by_cases hstop : (isHeadingTag node.tag && decide (levelOf node.tag ≤ targetLevel)) = true
    · rw [if_pos hstop]
      exact hle
    · rw [if_neg hstop]
      by_cases hsize : htmlOut.length + node.serialized.length > maxLen
      · rw [if_pos hsize]
        exact hle
      · rw [if_neg hsize]
        apply ih
        rw [String.length_append]
        omega

/-- Concatenation of a list of strings, in order. -/
def concatStrs : List String → String
  | [] => ""
  | s :: rest => s ++ concatStrs rest

/-- The accumulated markup is the concatenation of the serialized forms
of an initial segment of the sibling nodes. -/
theorem accumLoop_prefix (targetLevel maxLen : Nat) :
    ∀ (nodes : List HNode) (htmlOut : String) (codeBlocks textChunks : List String),
      ∃ k, (accumLoop targetLevel maxLen nodes htmlOut codeBlocks textChunks).1 =
        htmlOut ++ concatStrs ((nodes.take k).map HNode.serialized) := by
  intro nodes
  induction nodes with
  | nil =>
    intro htmlOut codeBlocks textChunks
    refine ⟨0, ?_⟩
    rw [accumLoop]
    simp [concatStrs]
  | cons node rest ih =>
    intro htmlOut codeBlocks textChunks
    rw [accumLoop]
    by_cases hstop : (isHeadingTag node.tag && decide (levelOf node.tag ≤ targetLevel)) = true
    · rw [if_pos hstop]
      refine ⟨0, ?_⟩
      simp [concatStrs]
    · rw [if_neg hstop]
      by_cases hsize : htmlOut.length + node.serialized.length > maxLen
      · rw [if_pos hsize]
        refine ⟨0, ?_⟩
        simp [concatStrs]
      · rw [if_neg hsize]
        obtain ⟨k, hk⟩ := ih (htmlOut ++ node.serialized) _ _
        refine ⟨k + 1, ?_⟩
        rw [hk]
        simp [concatStrs, String.append_assoc]

/-- Every entry surviving the `sitemap_list` filter chain passed the
scope filter (the later filters only remove entries). -/
theorem includeFilter_subset {includes : Option (List String)}
    {es : List SitemapEntry} {x : SitemapEntry}
    (h : x ∈ includeFilter includes es) : x ∈ es := by
  cases includes with
  | none => exact h
  | some ps =>
    unfold includeFilter at h
    simp only [] at h
    by_cases hp : ps.length ≠ 0
    · rw [if_pos hp] at h
      exact (List.mem_filter.mp h).1
    · rw [if_neg hp] at h
      exact h

theorem excludeFilter_subset {excludes : Option (List String)}
    {es : List SitemapEntry} {x : SitemapEntry}
    (h : x ∈ excludeFilter excludes es) : x ∈ es := by
  cases excludes with
  | none => exact h
  | some ps =>
    unfold excludeFilter at h
    simp only [] at h
    by_cases hp : ps.length ≠ 0
    · rw [if_pos hp] at h
      exact (List.mem_filter.mp h).1
    · rw [if_neg hp] at h
      exact h

theorem limitSlice_subset {limit : Option Nat}
    {es : List SitemapEntry} {x : SitemapEntry}
    (h : x ∈ limitSlice limit es) : x ∈ es := by
  cases limit with
  | none => exact h
  | some l =>
    unfold limitSlice at h
    simp only [] at h
    by_cases hl : l ≠ 0
    · rw [if_pos hl] at h
      exact List.take_subset _ _ h
    · rw [if_neg hl] at h
      exact h

theorem mem_applyListFilters {includes excludes : Option (List String)}
    {limit : Option Nat} {es : List SitemapEntry} {x : SitemapEntry}
    (h : x ∈ applyListFilters includes excludes limit es) :
    isDocsUrl x.loc = true := by
  unfold applyListFilters at h
  have h₁ := includeFilter_subset (excludeFilter_subset (limitSlice_subset h))
  exact (List.mem_filter.mp h₁).2

/-- With neither locator field supplied, no heading can match. -/
theorem findHeading_none_none (nodes : List HNode) :
    findHeading none none nodes = none := by
  rw [findHeading_eq_none]
  intro n _ hc
  rcases hc.2 with ⟨a, ha, _⟩ | ⟨t, ht, _⟩
  · cases ha
  · cases ht

/-! ## Claim theorems -/

/-- C2: for every URL parser and every string, `isDocsUrl` returns true
iff the string parses as a URL whose host equals `coder.com` or is a
subdomain of it and whose path equals `/docs` or starts with `/docs/`;
an unparsable string yields `false` (the `catch` branch) rather than an
exception, and the function is a pure total Lean function. -/
theorem claim_c2_isDocsUrl_scope (parseURL : String → Option UrlParts) (url : String) :
    (isDocsUrlWith parseURL url = true ↔ SpecInScope parseURL url) ∧
    (parseURL url = none → isDocsUrlWith parseURL url = false) := by
  constructor
  · unfold isDocsUrlWith SpecInScope
    cases hp : parseURL url with
    | none => simp
    | some u => simp [Bool.or_eq_true, beq_iff_eq, jsEndsWith_iff, jsStartsWith_iff]
  · intro h
    unfold isDocsUrlWith
    rw [h]

/-- Witness for C2: a concrete in-scope URL is accepted, and a concrete
unparsable string is rejected with `false`. -/
theorem claim_c2_witness :
    isDocsUrlWith parseUrlSimple "https://coder.com/docs/install" = true ∧
    isDocsUrlWith parseUrlSimple "not a url" = false := by
  constructor
  · exact (claim_c2_isDocsUrl_scope parseUrlSimple "https://coder.com/docs/install").1.mpr
      ⟨⟨"coder.com", "/docs/install"⟩, by rfl, Or.inl rfl, Or.inr ⟨"install", rfl⟩⟩
  · exact (claim_c2_isDocsUrl_scope parseUrlSimple "not a url").2 (by rfl)

/-- C9 counterexample: a leaf item whose `priority` is present with the
(JS-falsy) value `0` is mapped by `parseSitemap` to an entry whose
`priority` is omitted — the claim says a present priority is never
dropped.  `u.priority ? Number(u.priority) : undefined` tests
truthiness, not presence. -/
theorem claim_c9_counterexample :
    (RawUrlItem.priority
        ⟨"https://coder.com/docs/about", some "2024-01-01", some "daily", some 0⟩).isSome
      = true ∧
    (mkEntry
        ⟨"https://coder.com/docs/about", some "2024-01-01", some "daily", some 0⟩).priority
      = none := by
  constructor
  · rfl
  · simp [mkEntry]

/-- C9 amended: `loc`, `lastmod` and `changefreq` pass through verbatim,
and `priority` is carried over exactly when it is present and nonzero
(JS truthiness); a present-but-zero priority and an absent priority are
both omitted. -/
theorem claim_c9_entry_mapping (u : RawUrlItem) (p : Rat) :
    (mkEntry u).loc = u.loc ∧
    (mkEntry u).lastmod = u.lastmod ∧
    (mkEntry u).changefreq = u.changefreq ∧
    (u.priority = some p → p ≠ 0 → (mkEntry u).priority = some p) ∧
    (u.priority = some 0 → (mkEntry u).priority = none) ∧
    (u.priority = none → (mkEntry u).priority = none) := by
  refine ⟨rfl, rfl, rfl, ?_, ?_, ?_⟩
  · intro hp hne
    simp [mkEntry, hp, hne]
  · intro hp
    simp [mkEntry, hp]
  · intro hp
    simp [mkEntry, hp]

/-- Witness for the amended C9 at concrete items. -/
theorem claim_c9_witness :
    (mkEntry ⟨"https://coder.com/docs/a", some "2024-01-01", some "daily", some (1/2)⟩).priority
      = some (1/2) ∧
    (mkEntry ⟨"https://coder.com/docs/b", none, none, none⟩).priority = none := by
  constructor
  · exact (claim_c9_entry_mapping
      ⟨"https://coder.com/docs/a", some "2024-01-01", some "daily", some (1/2)⟩
      (1/2)).2.2.2.1 rfl (by norm_num)
  · exact (claim_c9_entry_mapping
      ⟨"https://coder.com/docs/b", none, none, none⟩ 1).2.2.2.2.2 rfl

/-- C10: when the caller supplies neither `anchorId` nor `headingText`,
both match arms of the locator scan are falsy, so no heading can match
and the extraction always reports the not-found result, whatever the
page contains. -/
theorem claim_c10_no_locator_not_found (nodes : List HNode) (maxChars : Option Nat) :
    extractSection nodes none none maxChars =
      .notFound "Section not found by anchorId or headingText." := by
  unfold extractSection
  rw [findHeading_none_none]

/-- C5: resolution terminates on every sitemap tree, cyclic references
included. (a) A sitemap URL already in the visited set contributes an
empty result with the state unchanged — it is not re-fetched; (b) any
fuel budget covering the unvisited fetchable URLs completes the
embedded recursion, i.e. the real recursion, whose depth the VisitedSet
guard bounds, terminates; (c) a successful run started from the empty
state has a duplicate-free fetch log: each sitemap document is fetched
and expanded at most once per resolution call. -/
theorem claim_c5_termination (w : Web) :
    (∀ fuel url st, url ∈ st.seen →
       parseSitemapF fuel w url st = some (.ok ([], st))) ∧
    (∀ url st fuel, (unvisited w st.seen + 1) * (maxFan w + 1) ≤ fuel →
       parseSitemapF fuel w url st ≠ none) ∧
    (∀ fuel url es st', parseSitemapF fuel w url ⟨[], []⟩ = some (.ok (es, st')) →
       st'.log.Nodup) := by
  refine ⟨?_, ?_, ?_⟩
  · intro fuel url st hm
    exact psf_mem fuel w hm
  · intro url st fuel hf
    exact psf_total w (unvisited w st.seen) url st fuel (le_refl _) hf
  · intro fuel url es st' h
    obtain ⟨-, nl, hlog, hnd, -⟩ :=
      (parseSitemap_evolves fuel w).1 url ⟨[], []⟩ es st' h
    rw [hlog]
    simpa using hnd

/-- Witness for C5: a sitemap index that lists itself as its first
child terminates and returns the entries of its non-cyclic leaf exactly
once. -/
theorem claim_c5_witness :
    (unvisited wSelfCycle [] + 1) * (maxFan wSelfCycle + 1) ≤ 12 ∧
    parseSitemapF 12 wSelfCycle "https://coder.com/sitemap.xml" ⟨[], []⟩ ≠ none ∧
    parseSitemapF 12 wSelfCycle "https://coder.com/sitemap.xml" ⟨[], []⟩ =
      some (.ok ([⟨"https://coder.com/docs/about", none, none, none⟩],
        ⟨["https://coder.com/docs.xml", "https://coder.com/sitemap.xml"],
         ["https://coder.com/sitemap.xml", "https://coder.com/docs.xml"]⟩)) := by
  refine ⟨by decide, ?_, by rfl⟩
  exact (claim_c5_termination wSelfCycle).2.1 "https://coder.com/sitemap.xml"
    ⟨[], []⟩ 12 (by decide)

/-- C6: (a) an error outcome of a resolution names a URL whose fetch
returned a non-success response, together with that response's status —
the `fetchXml` exception is propagated unchanged, never retried or
swallowed; (b) a successful outcome certifies that every fetch
performed during the run succeeded, so no partial entry list is ever
returned over a failed branch (the result type allows no mixed
outcome). -/
theorem claim_c6_fetch_failure (fuel : Nat) (w : Web) (url : String)
    (seen : List String) :
    (∀ e, parseSitemapF fuel w url ⟨seen, []⟩ = some (.error e) →
       w.findDoc e.url = none ∧ e.status = w.failStatus e.url) ∧
    (∀ es st', parseSitemapF fuel w url ⟨seen, []⟩ = some (.ok (es, st')) →
       ∀ u ∈ st'.log, w.findDoc u ≠ none) := by
  constructor
  · intro e h
    exact (parseSitemap_error_characterization fuel w).1 url ⟨seen, []⟩ e h
  · intro es st' h u hu
    obtain ⟨-, nl, hlog, -, hp⟩ :=
      (parseSitemap_evolves fuel w).1 url ⟨seen, []⟩ es st' h
    rw [hlog] at hu
    simp only [List.nil_append] at hu
    exact (hp u hu).2.2

/-- Witness for C6: an index with one good leaf and one unfetchable
child fails the whole resolution with the bad URL and its 404 status —
the good sibling's entries are not returned. -/
theorem claim_c6_witness :
    parseSitemapF 4 wBadBranch "https://coder.com/sitemap.xml" ⟨[], []⟩ =
      some (.error ⟨"https://coder.com/bad.xml", 404⟩) ∧
    wBadBranch.findDoc "https://coder.com/bad.xml" = none ∧
    (404 : Nat) = wBadBranch.failStatus "https://coder.com/bad.xml" := by
  have h : parseSitemapF 4 wBadBranch "https://coder.com/sitemap.xml" ⟨[], []⟩ =
      some (.error ⟨"https://coder.com/bad.xml", 404⟩) := by rfl
  have hc := (claim_c6_fetch_failure 4 wBadBranch "https://coder.com/sitemap.xml" []).1
    ⟨"https://coder.com/bad.xml", 404⟩ h
  exact ⟨h, hc.1, hc.2⟩

/-- C7: a two-level sitemap index `{A: [c1, c2]}` over distinct URLs,
where `c1` is a leaf yielding `items1` and `c2` a leaf yielding
`items2`, resolves to `items1`'s entries followed by `items2`'s
entries: the concurrently expanded siblings are flattened in their
original listing order, depth-first. -/
theorem claim_c7_listing_order (w : Web) (a c1 c2 : String)
    (u : Option (List RawUrlItem)) (items1 items2 : List RawUrlItem) (fuel : Nat)
    (ha : w.findDoc a = some ⟨some [c1, c2], u⟩)
    (h1 : w.findDoc c1 = some ⟨none, some items1⟩)
    (h2 : w.findDoc c2 = some ⟨none, some items2⟩)
    (hc1a : c1 ≠ a) (hc2a : c2 ≠ a) (hc21 : c2 ≠ c1) :
    parseSitemapF (fuel + 4) w a ⟨[], []⟩ =
      some (.ok (items1.map mkEntry ++ items2.map mkEntry,
        ⟨[c2, c1, a], [a, c1, c2]⟩)) := by
  have hma : a ∉ ([] : List String) := by simp
  have hmc1 : c1 ∉ [a] := by simp [hc1a]
  have hmc2 : c2 ∉ [c1, a] := by simp [hc2a, hc21]
  have e2 : parseSitemapF (fuel + 2) w c1 ⟨[a], [a]⟩ =
      some (.ok (items1.map mkEntry, ⟨[c1, a], [a, c1]⟩)) := by
    rw [show fuel + 2 = fuel + 1 + 1 from rfl, psf_succ (fuel + 1) w hmc1,
      fetchXml_ok.mpr h1, afterFetch_ok, expandDoc_leaf rfl rfl]
    rfl
  have e3 : parseSitemapF (fuel + 1) w c2 ⟨[c1, a], [a, c1]⟩ =
      some (.ok (items2.map mkEntry, ⟨[c2, c1, a], [a, c1, c2]⟩)) := by
    rw [psf_succ fuel w hmc2, fetchXml_ok.mpr h2, afterFetch_ok,
      expandDoc_leaf rfl rfl]
    rfl
  have e4 : parseChildren (fuel + 2) w [c2] ⟨[c1, a], [a, c1]⟩ =
      some (.ok (items2.map mkEntry ++ [], ⟨[c2, c1, a], [a, c1, c2]⟩)) := by
    rw [show fuel + 2 = fuel + 1 + 1 from rfl,
      pchildren_succ (fuel + 1) w c2 [] ⟨[c1, a], [a, c1]⟩, e3, combineChild_ok,
      pchildren_nil]
  have e5 : parseChildren (fuel + 3) w [c1, c2] ⟨[a], [a]⟩ =
      some (.ok (items1.map mkEntry ++ (items2.map mkEntry ++ []),
        ⟨[c2, c1, a], [a, c1, c2]⟩)) := by
    rw [show fuel + 3 = fuel + 2 + 1 from rfl,
      pchildren_succ (fuel + 2) w c1 [c2] ⟨[a], [a]⟩, e2, combineChild_ok, e4]
  have e1 : parseSitemapF (fuel + 4) w a ⟨[], []⟩ =
      parseChildren (fuel + 3) w [c1, c2] ⟨[a], [a]⟩ := by
    rw [show fuel + 4 = fuel + 3 + 1 from rfl, psf_succ (fuel + 3) w hma,
      fetchXml_ok.mpr ha, afterFetch_ok, expandDoc_index rfl]
    rfl
  rw [e1, e5]
  simp

/-- Witness for C7 at a concrete two-level tree: leaf one yields p1, p2
and leaf two yields p3; the resolved order is p1, p2, p3. -/
theorem claim_c7_witness :
    parseSitemapF 4 wTwoLevel "https://coder.com/sitemap.xml" ⟨[], []⟩ =
      some (.ok ([⟨"https://coder.com/docs/p1", none, none, none⟩,
                  ⟨"https://coder.com/docs/p2", none, none, none⟩,
                  ⟨"https://coder.com/docs/p3", none, none, none⟩],
        ⟨["https://coder.com/b.xml", "https://coder.com/a.xml",
          "https://coder.com/sitemap.xml"],
         ["https://coder.com/sitemap.xml", "https://coder.com/a.xml",
          "https://coder.com/b.xml"]⟩)) := by
  have h := claim_c7_listing_order wTwoLevel "https://coder.com/sitemap.xml"
    "https://coder.com/a.xml" "https://coder.com/b.xml" none
    [⟨"https://coder.com/docs/p1", none, none, none⟩,
     ⟨"https://coder.com/docs/p2", none, none, none⟩]
    [⟨"https://coder.com/docs/p3", none, none, none⟩] 0
    (by rfl) (by rfl) (by rfl) (by decide) (by decide) (by decide)
  simpa [mkEntry] using h

/-- C1 counterexample: the resolver's fetches are not scope-checked.
The default root sitemap URL `https://coder.com/sitemap.xml` fails the
scope filter (its path is not under `/docs`), yet a resolution run over
a web that serves it succeeds and records it in the fetch log: the core
does fetch URLs outside the configured scope during sitemap
expansion. -/
theorem claim_c1_counterexample :
    parseSitemapF 1 wRootOnly "https://coder.com/sitemap.xml" ⟨[], []⟩ =
      some (.ok ([⟨"https://coder.com/docs/about", none, none, none⟩],
        ⟨["https://coder.com/sitemap.xml"], ["https://coder.com/sitemap.xml"]⟩)) ∧
    "https://coder.com/sitemap.xml" ∈
      (["https://coder.com/sitemap.xml"] : List String) ∧
    isDocsUrl "https://coder.com/sitemap.xml" = false := by
  refine ⟨by rfl, by simp, by rfl⟩

/-- C1 amended: every `SitemapEntry` surfaced by `sitemap_list` passes
the scope filter, and `page_section` rejects an out-of-scope URL before
any fetch — its outcome does not depend on the page environment at all.
Sitemap-document fetches during resolution, however, are not
scope-checked (see the counterexample). -/
theorem claim_c1_scope_guarantees :
    (∀ w fuel sitemapUrl includes excludes limit out,
       sitemapListExecute w fuel sitemapUrl includes excludes limit =
         some (.ok out) →
       ∀ e ∈ out.entries, isDocsUrl e.loc = true) ∧
    (∀ pages url anchorId headingText maxChars, isDocsUrl url = false →
       pageSectionExecute pages url anchorId headingText maxChars =
         .error .scope) := by
  constructor
  · intro w fuel sitemapUrl includes excludes limit out h e he
    unfold sitemapListExecute at h
    cases hp : parseSitemapF fuel w (sitemapUrl.getD "https://coder.com/sitemap.xml")
        ⟨[], []⟩ with
    | none =>
      rw [hp] at h
      cases h
    | some r =>
      rw [hp] at h
      cases r with
      | error er => simp at h
      | ok p =>
        obtain ⟨es, st'⟩ := p
        have hout : out = ⟨(applyListFilters includes excludes limit es).length,
            applyListFilters includes excludes limit es⟩ := by
          simpa [eq_comm] using h
        rw [hout] at he
        exact mem_applyListFilters he
  · intro pages url anchorId headingText maxChars h
    unfold pageSectionExecute
    rw [h]
    rfl

/-- Witness for the amended C1: a concrete `sitemap_list` run returns
only in-scope entries, and a concrete out-of-scope `page_section` call
is rejected without consulting the page environment. -/
theorem claim_c1_witness :
    isDocsUrl (SitemapEntry.loc ⟨"https://coder.com/docs/about", none, none, none⟩)
      = true ∧
    pageSectionExecute (fun _ => .error 500) "https://example.com/docs" none none none
      = .error .scope := by
  constructor
  · apply claim_c1_scope_guarantees.1 wRootOnly 1 none none none none
      ⟨1, [⟨"https://coder.com/docs/about", none, none, none⟩]⟩ (by rfl)
    simp
  · exact claim_c1_scope_guarantees.2 (fun _ => .error 500) "https://example.com/docs"
      none none none (by rfl)

/-- C3: the sibling scan stops exactly at a heading of numerically
smaller-or-equal level. (a) Such a heading ends the accumulation with
nothing further consumed; (b) a heading of strictly larger level — a
less significant sub-heading — whose serialized form still fits the
size limit is appended, its text recorded, and the scan continues past
it over the remaining siblings; (c) the accumulation characterized in
(a) and (b) is exactly what a successful `extractSection` performs on
the siblings after the matched heading. -/
theorem claim_c3_stop_rule :
    (∀ targetLevel maxLen (n : HNode) rest htmlOut codeBlocks textChunks,
       isHeadingTag n.tag = true → levelOf n.tag ≤ targetLevel →
       accumLoop targetLevel maxLen (n :: rest) htmlOut codeBlocks textChunks =
         (htmlOut, codeBlocks, textChunks)) ∧
    (∀ targetLevel maxLen (n : HNode) rest htmlOut codeBlocks textChunks,
       isHeadingTag n.tag = true → targetLevel < levelOf n.tag →
       htmlOut.length + n.serialized.length ≤ maxLen →
       accumLoop targetLevel maxLen (n :: rest) htmlOut codeBlocks textChunks =
         accumLoop targetLevel maxLen rest (htmlOut ++ n.serialized)
           (if (n.tag == "pre" || n.tag == "code") = true
            then codeBlocks ++ [jsTrim n.text] else codeBlocks)
           (if jsTrim n.text ≠ "" then textChunks ++ [jsTrim n.text] else textChunks)) ∧
    (∀ nodes anchorId headingText maxChars start rest,
       findHeading anchorId headingText nodes = some (start, rest) →
       extractSection nodes anchorId headingText maxChars =
         .ok ⟨(match anchorId with | some a => some a | none => headingId start),
              jsTrim start.text,
              (accumLoop (levelOf start.tag) (maxChars.getD 5000) rest "" [] []).1,
              jsJoin "\n\n"
                (accumLoop (levelOf start.tag) (maxChars.getD 5000) rest "" [] []).2.2,
              (accumLoop (levelOf start.tag) (maxChars.getD 5000) rest "" [] []).2.1⟩) := by
  refine ⟨?_, ?_, ?_⟩
  · intro targetLevel maxLen n rest htmlOut codeBlocks textChunks hh hle
    rw [accumLoop, if_pos]
    simp [hh, hle]
  · intro targetLevel maxLen n rest htmlOut codeBlocks textChunks hh hgt hfit
    rw [accumLoop, if_neg, if_neg]
    · omega
    · simp [hh]
      omega
  · intro nodes anchorId headingText maxChars start rest hfind
    unfold extractSection
    rw [hfind]

/-- Witness for C3 on a concrete page: an `h2` section containing an
`h3` sub-heading; the scan consumes the `h3` and its paragraph and
stops at the next `h2`, and a smaller-or-equal heading stops the scan
immediately. -/
theorem claim_c3_witness :
    accumLoop 2 5000
      [⟨"h2", some "next", none, "Next", "<h2>Next</h2>"⟩]
      "" [] [] = ("", [], []) ∧
    accumLoop 2 5000
      [⟨"h3", some "sub", none, "Sub", "<h3>Sub</h3>"⟩,
       ⟨"p", none, none, "body", "<p>body</p>"⟩,
       ⟨"h2", some "next", none, "Next", "<h2>Next</h2>"⟩]
      "" [] [] =
      accumLoop 2 5000
        [⟨"p", none, none, "body", "<p>body</p>"⟩,
         ⟨"h2", some "next", none, "Next", "<h2>Next</h2>"⟩]
        "<h3>Sub</h3>" [] ["Sub"] ∧
    extractSection
      [⟨"h2", some "sec", none, "Sec", "<h2>Sec</h2>"⟩,
       ⟨"h3", some "sub", none, "Sub", "<h3>Sub</h3>"⟩,
       ⟨"p", none, none, "body", "<p>body</p>"⟩,
       ⟨"h2", some "next", none, "Next", "<h2>Next</h2>"⟩]
      (some "sec") none none =
      .ok ⟨some "sec", "Sec", "<h3>Sub</h3><p>body</p>", "Sub\n\nbody", []⟩ := by
  refine ⟨?_, ?_, ?_⟩
  · exact claim_c3_stop_rule.1 2 5000 ⟨"h2", some "next", none, "Next", "<h2>Next</h2>"⟩
      [] "" [] [] (by rfl) (by decide)
  · have h := claim_c3_stop_rule.2.1 2 5000 ⟨"h3", some "sub", none, "Sub", "<h3>Sub</h3>"⟩
      [⟨"p", none, none, "body", "<p>body</p>"⟩,
       ⟨"h2", some "next", none, "Next", "<h2>Next</h2>"⟩]
      "" [] [] (by rfl) (by decide) (by decide)
    rw [h]
    decide
  · have h := claim_c3_stop_rule.2.2
      [⟨"h2", some "sec", none, "Sec", "<h2>Sec</h2>"⟩,
       ⟨"h3", some "sub", none, "Sub", "<h3>Sub</h3>"⟩,
       ⟨"p", none, none, "body", "<p>body</p>"⟩,
       ⟨"h2", some "next", none, "Next", "<h2>Next</h2>"⟩]
      (some "sec") none none
      ⟨"h2", some "sec", none, "Sec", "<h2>Sec</h2>"⟩
      [⟨"h3", some "sub", none, "Sub", "<h3>Sub</h3>"⟩,
       ⟨"p", none, none, "body", "<p>body</p>"⟩,
       ⟨"h2", some "next", none, "Next", "<h2>Next</h2>"⟩]
      (by rfl)
    rw [h]
    decide

/-- C4: the raw markup of a successful extraction never exceeds
`maxChars` (default 5000 when not supplied), and is the concatenation
of the serialized forms of an initial segment of the section's sibling
nodes — a node whose serialized form would overflow the limit is not
appended and accumulation stops there. -/
theorem claim_c4_size_bound (nodes : List HNode) (anchorId headingText : Option String)
    (maxChars : Option Nat) (s : SectionOk)
    (h : extractSection nodes anchorId headingText maxChars = .ok s) :
    s.html.length ≤ maxChars.getD 5000 ∧
    ∃ start rest k, findHeading anchorId headingText nodes = some (start, rest) ∧
      s.html = concatStrs ((rest.take k).map HNode.serialized) := by
  unfold extractSection at h
  cases hf : findHeading anchorId headingText nodes with
  | none =>
    rw [hf] at h
    cases h
  | some p =>
    obtain ⟨start, rest⟩ := p
    rw [hf] at h
    have hs : s.html =
        (accumLoop (levelOf start.tag) (maxChars.getD 5000) rest "" [] []).1 := by
      have := h
      simp only [SectionResult.ok.injEq] at this
      rw [← this]
    constructor
    · rw [hs]
      exact accumLoop_length_le _ _ rest "" [] [] (by simp)
    · obtain ⟨k, hk⟩ :=
        accumLoop_prefix (levelOf start.tag) (maxChars.getD 5000) rest "" [] []
      refine ⟨start, rest, k, rfl, ?_⟩
      rw [hs, hk]
      simp

/-- Witness for C4: with `maxChars = 10`, a section of an 8-character
paragraph and a 9-character paragraph keeps only the first one; the
returned markup has length 8 ≤ 10. -/
theorem claim_c4_witness :
    extractSection
      [⟨"h2", some "s", none, "T", "<h2>T</h2>"⟩,
       ⟨"p", none, none, "a", "<p>a</p>"⟩,
       ⟨"p", none, none, "bb", "<p>bb</p>"⟩]
      (some "s") none (some 10) =
      .ok ⟨some "s", "T", "<p>a</p>", "a", []⟩ ∧
    (SectionOk.html ⟨some "s", "T", "<p>a</p>", "a", []⟩).length ≤
      (some 10).getD 5000 := by
  constructor
  · rfl
  · exact (claim_c4_size_bound
      [⟨"h2", some "s", none, "T", "<h2>T</h2>"⟩,
       ⟨"p", none, none, "a", "<p>a</p>"⟩,
       ⟨"p", none, none, "bb", "<p>bb</p>"⟩]
      (some "s") none (some 10) ⟨some "s", "T", "<p>a</p>", "a", []⟩ (by rfl)).1

/-- C8 counterexample: the locator scan tests the supplied `anchorId`
for JS truthiness before comparing, so a supplied empty-string anchor
never matches — even against a heading whose identifier is exactly the
empty string.  The claim's "first heading whose identifier equals the
supplied anchorId (when given)" fails at `anchorId = ""`. -/
theorem claim_c8_counterexample :
    headingId ⟨"h2", some "", none, "Title", "<h2>Title</h2>"⟩ = some "" ∧
    extractSection [⟨"h2", some "", none, "Title", "<h2>Title</h2>"⟩]
      (some "") none none =
      .notFound "Section not found by anchorId or headingText." := by
  exact ⟨rfl, rfl⟩

/-- C8 amended: the target is the first heading in document order whose
identifier equals the supplied anchor id (when supplied non-empty) or
whose trimmed text equals the supplied heading text case-insensitively
(when supplied non-empty); both arms are attempted per heading and the
scan stops at the first match.  When no heading matches, the extraction
returns the structured not-found result with its diagnostic reason
instead of raising an error. -/
theorem claim_c8_locator_scan (anchorId headingText : Option String)
    (nodes : List HNode) (maxChars : Option Nat) :
    ((∀ n ∈ nodes, ¬ MatchesSpec anchorId headingText n) →
       extractSection nodes anchorId headingText maxChars =
         .notFound "Section not found by anchorId or headingText.") ∧
    (∀ pre h post, nodes = pre ++ h :: post →
       (∀ n ∈ pre, ¬ MatchesSpec anchorId headingText n) →
       MatchesSpec anchorId headingText h →
       ∃ s, extractSection nodes anchorId headingText maxChars = .ok s ∧
         s.heading = jsTrim h.text) := by
  constructor
  · intro hnone
    unfold extractSection
    rw [findHeading_eq_none.mpr hnone]
  · intro pre h post hnodes hpre hmatch
    subst hnodes
    unfold extractSection
    rw [findHeading_first hpre hmatch]
    exact ⟨_, rfl, rfl⟩

/-- Witness for the amended C8: the case-insensitive text locator
`"install"` matches the heading `"Install"` after a non-matching
paragraph, and a page with no matching heading yields the structured
not-found result. -/
theorem claim_c8_witness :
    (∃ s, extractSection
        [⟨"p", none, none, "intro", "<p>intro</p>"⟩,
         ⟨"h2", some "install", none, "Install", "<h2>Install</h2>"⟩]
        none (some "install") none = .ok s ∧ s.heading = "Install") ∧
    extractSection [⟨"p", none, none, "intro", "<p>intro</p>"⟩]
      none (some "zzz") none =
      .notFound "Section not found by anchorId or headingText." := by
  constructor
  · have h := (claim_c8_locator_scan none (some "install")
      [⟨"p", none, none, "intro", "<p>intro</p>"⟩,
       ⟨"h2", some "install", none, "Install", "<h2>Install</h2>"⟩] none).2
      [⟨"p", none, none, "intro", "<p>intro</p>"⟩]
      ⟨"h2", some "install", none, "Install", "<h2>Install</h2>"⟩ [] rfl
      ?_ ?_
    · obtain ⟨s, hs, hh⟩ := h
      exact ⟨s, hs, by rw [hh]; decide⟩
    · intro n hn
      simp only [List.mem_singleton] at hn
      subst hn
      intro hc
      exact absurd hc.1 (by decide)
    · refine ⟨by rfl, Or.inr ⟨"install", rfl, by decide, by rfl⟩⟩
  · exact (claim_c8_locator_scan none (some "zzz")
      [⟨"p", none, none, "intro", "<p>intro</p>"⟩] none).1
      (by
        intro n hn
        simp only [List.mem_singleton] at hn
        subst hn
        intro hc
        rcases hc.2 with ⟨a, ha, _⟩ | ⟨t, ht, _, htxt⟩
        · cases ha
        · exact absurd hc.1 (by decide))

end DocsAgent
